import Mathlib

/-!
Verification of the publish pipeline of a chat-to-blog bot.

The Python sources under `src/bot/` are shallowly embedded below:
strings are `List Char`, ordered dicts are association lists with
insert-in-place semantics, remote-store interaction is modelled as a
call trace over an abstract store, and the image codec (PIL) is an
abstract structure whose numeric driving loop is embedded faithfully.
-/

namespace TgBlog

/-! ### Python string primitives -/

/-- A whitespace character in the sense of Python `str.isspace` — the
set removed by `str.strip()` and matched by `\s` on text patterns. -/
def isPyWs (c : Char) : Bool :=
  c = ' ' || c = '\t' || c = '\n' || c = '\x0b' || c = '\x0c' || c = '\r' ||
    c = '\x1c' || c = '\x1d' || c = '\x1e' || c = '\x1f' || c = '\x85' ||
    c = '\xa0' || c = '\u1680' ||
    (0x2000 ≤ c.toNat && c.toNat ≤ 0x200a) ||
    c = '\u2028' || c = '\u2029' || c = '\u202F' || c = '\u205F' || c = '\u3000'

/-- A line-boundary character of Python `str.splitlines`. -/
def isLB (c : Char) : Bool :=
  c = '\n' || c = '\r' || c = '\x0b' || c = '\x0c' ||
    c = '\x1c' || c = '\x1d' || c = '\x1e' || c = '\x85' ||
    c = '\u2028' || c = '\u2029'

/-- Python `str.strip(chars)`: drop the maximal run of matching characters
from both ends. -/
def pyStrip (p : Char → Bool) (l : List Char) : List Char :=
  ((l.dropWhile p).reverse.dropWhile p).reverse

/-- Python `str.lower()` restricted to ASCII letters. -/
def pyLower (l : List Char) : List Char :=
  l.map (fun c => if 'A' ≤ c && c ≤ 'Z' then Char.ofNat (c.toNat + 32) else c)

/-- Normalize every line boundary to `\n`: the pair `\r\n` counts as a
single boundary and every other `str.splitlines` boundary character as
one of its own. -/
def normNl : List Char → List Char
  | [] => []
  | c :: rest =>
      if c = '\r' then
        match rest with
        | '\n' :: rest2 => '\n' :: normNl rest2
        | other => '\n' :: normNl other
      else if isLB c then '\n' :: normNl rest
      else c :: normNl rest

/-- Split at every `'\n'`, always emitting the final segment. -/
def splitSegs : List Char → List (List Char)
  | [] => [[]]
  | c :: rest =>
      let r := splitSegs rest
      if c = '\n' then [] :: r else (c :: r.headI) :: r.tail

/-- Python `str.splitlines()` over the full boundary set (`\n`, `\r`,
`\r\n`, `\x0b`, `\x0c`, `\x1c`–`\x1e`, `\x85`, U+2028, U+2029): no entry
is produced after a final line terminator. -/
def pySplitlines (l : List Char) : List (List Char) :=
  if l.isEmpty then []
  else
    let segs := splitSegs (normNl l)
    if segs.getLast? = some [] then segs.dropLast else segs

/-- Index of the earliest occurrence of `"---"` in `l`, if any. -/
def findSub3 : List Char → Option Nat
  | [] => none
  | c :: rest =>
      if (c :: rest).take 3 = ['-', '-', '-'] then some 0
      else (findSub3 rest).map (· + 1)

/-- Length of the leading run of `'\n'` characters. -/
def nlRun (l : List Char) : Nat := (l.takeWhile (· = '\n')).length

/-- Length of the match of the anchored Python pattern
`---[\s\S]*?---\n*` at the start of `l` (`None` when it does not match):
the opening `"---"`, the lazily-shortest span up to the next `"---"`,
then a greedy run of newlines. -/
def fmMatchLen (l : List Char) : Option Nat :=
  if l.take 3 = ['-', '-', '-'] then
    match findSub3 (l.drop 3) with
    | some j => some (3 + j + 3 + nlRun ((l.drop 3).drop (j + 3)))
    | none => none
  else none

/-! ### Ordered field mappings (Python `dict[str, str]`) -/

/-- An insertion-ordered string-to-string mapping. -/
abbrev Fields := List (List Char × List Char)

/-- Python `d[k] = v` on an insertion-ordered dict: overwrite in place if
the key is present, otherwise append at the end. -/
def dictInsert (m : Fields) (k v : List Char) : Fields :=
  if m.any (fun p => p.1 = k) then
    m.map (fun p => if p.1 = k then (k, v) else p)
  else m ++ [(k, v)]

/-- Python `d.setdefault(k, v)`: insert at the end only when absent. -/
def setdefault (m : Fields) (k v : List Char) : Fields :=
  if m.any (fun p => p.1 = k) then m else m ++ [(k, v)]

/-- Whether the mapping has an entry for key `k`. -/
def hasKey (m : Fields) (k : List Char) : Bool :=
  m.any (fun p => p.1 = k)

/-! ### content_service.py -/

/-- `generate_frontmatter`: the fixed two-line `pubDate`-only block. -/
def generate_frontmatter (dateStr : List Char) : List Char :=
  "---\npubDate: \"".toList ++ dateStr ++ "\"\n---\n\n".toList

/-- `assemble_content`: fresh frontmatter prepended to the body. -/
def assemble_content (body dateStr : List Char) : List Char :=
  generate_frontmatter dateStr ++ body

/-- Split a line at the first `':'` (Python `str.partition(":")`,
keeping only the two sides). -/
def partitionColon (l : List Char) : List Char × List Char :=
  (l.takeWhile (· ≠ ':'), l.drop ((l.takeWhile (· ≠ ':')).length + 1))

/-- The value-cleaning chain of `parse_frontmatter`:
`val.strip().strip('"').strip("'")`. -/
def stripValue (v : List Char) : List Char :=
  pyStrip (· = '\'') (pyStrip (· = '"') (pyStrip isPyWs v))

/-- One step of the interior-line loop of `parse_frontmatter`. -/
def parseLineStep (fs : Fields) (line : List Char) : Fields :=
  let l := pyStrip isPyWs line
  if l = "---".toList || l.isEmpty then fs
  else if !l.contains ':' then fs
  else
    let kv := partitionColon l
    dictInsert fs (pyStrip isPyWs kv.1) (stripValue kv.2)

/-- `parse_frontmatter`: split off the leading frontmatter block (if the
anchored pattern matches) and fold the interior lines into a mapping. -/
def parse_frontmatter (content : List Char) : Fields × List Char :=
  match fmMatchLen content with
  | none => ([], content)
  | some n =>
      ((pySplitlines (content.take n)).foldl parseLineStep [], content.drop n)

/-- The field-merging core of `assemble_content_with_title` (source lines
98-104): inject `title`/`pubDate` only when missing, or synthesize the
two-field mapping when nothing was parsed. -/
def mergeFields (fields : Fields) (title dateStr : List Char) : Fields :=
  if fields.isEmpty then
    [("title".toList, title), ("pubDate".toList, dateStr)]
  else
    setdefault (setdefault fields "title".toList title) "pubDate".toList dateStr

/-- Python `"\n".join(lines)`. -/
def joinNl : List (List Char) → List Char
  | [] => []
  | [x] => x
  | x :: xs => x ++ '\n' :: joinNl xs

/-- The serialized form of one `key: "value"` line. -/
def fieldLine (kv : List Char × List Char) : List Char :=
  kv.1 ++ ": \"".toList ++ kv.2 ++ ['\"']

/-- The frontmatter-block rebuild of `assemble_content_with_title`
(source lines 108-113): `---`, one `key: "value"` line per entry in
mapping order, `---`, joined by newlines, plus the blank separator line. -/
def serializeFields (fs : Fields) : List Char :=
  joinNl ("---".toList :: fs.map fieldLine ++ ["---".toList]) ++ "\n\n".toList

/-- `assemble_content_with_title`: parse the body's own frontmatter,
merge, rebuild.  When the parsed mapping is empty the source resets the
body text to the whole input. -/
def assemble_content_with_title (body title dateStr : List Char) : List Char :=
  let pr := parse_frontmatter body
  let bodyText := if pr.1.isEmpty then body else pr.2
  serializeFields (mergeFields pr.1 title dateStr) ++ bodyText

/-! ### content_service.py — path generation -/

/-- The character class of `_RE_CJK_ALPHA`: the U+4E00–U+9FA5 ideograph
range or an ASCII letter. -/
def isCJKAlpha (c : Char) : Bool :=
  (0x4e00 ≤ c.toNat && c.toNat ≤ 0x9fa5) || ('a' ≤ c && c ≤ 'z') || ('A' ≤ c && c ≤ 'Z')

/-- The character-collecting loop of `generate_file_path` (source lines
47-54): the counter is checked at the top of each iteration. -/
def first4Go : List Char → Nat → List Char
  | [], _ => []
  | c :: rest, count =>
      if count ≥ 4 then []
      else if isCJKAlpha c then c :: first4Go rest (count + 1)
      else first4Go rest count

/-- Up to the first four CJK/ASCII-letter characters of the cleaned text. -/
def first4 (plain : List Char) : List Char := first4Go plain 0

/-- Earliest index where `']'` is immediately followed by `'('`, scanning
only across non-newline characters (the lazy `.*?\]\(` of `_RE_MD_IMAGE`). -/
def findBrkParen : List Char → Option Nat
  | ']' :: '(' :: _ => some 0
  | '\n' :: _ => none
  | _ :: rest => (findBrkParen rest).map (· + 1)
  | [] => none

/-- Earliest `')'` reachable without crossing a newline
(the lazy `.*?\)` of `_RE_MD_IMAGE`). -/
def findClParen : List Char → Option Nat
  | ')' :: _ => some 0
  | '\n' :: _ => none
  | _ :: rest => (findClParen rest).map (· + 1)
  | [] => none

/-- Given the input right after a `'!'`, the number of characters an
`![alt](url)` match consumes, if `_RE_MD_IMAGE` matches here. -/
def imageLen (l : List Char) : Option Nat :=
  match l with
  | '[' :: r2 =>
      match findBrkParen r2 with
      | some i =>
          match findClParen (r2.drop (i + 2)) with
          | some j => some (1 + i + 2 + j + 1)
          | none => none
      | none => none
  | _ => none

/-- Worker for `subMdImages`.  Every step consumes at least one input
character, so fuel equal to the input length never runs out. -/
def subMdImagesGo : Nat → List Char → List Char
  | 0, l => l
  | _ + 1, [] => []
  | fuel + 1, '!' :: rest =>
      match imageLen rest with
      | some n => subMdImagesGo fuel (rest.drop n)
      | none => '!' :: subMdImagesGo fuel rest
  | fuel + 1, c :: rest => c :: subMdImagesGo fuel rest

/-- `_RE_MD_IMAGE.sub("", ·)`: delete every markdown image, scanning left
to right and advancing one character where no match starts. -/
def subMdImages (l : List Char) : List Char :=
  subMdImagesGo l.length l

/-- Earliest occurrence of one character. -/
def findChar (t : Char) : List Char → Option Nat
  | [] => none
  | c :: rest => if c = t then some 0 else (findChar t rest).map (· + 1)

/-- Given the input right after a `'['`, the characters a
`[anchor](url)` match consumes and the anchor text kept by
`_RE_MD_LINK.sub(r"\1", ·)`; both bracketed parts need at least one
character and stop at the first closing bracket. -/
def linkAfterBrk (r2 : List Char) : Option (Nat × List Char) :=
  match findChar ']' r2 with
  | some i =>
      if i = 0 then none
      else
        match r2.drop (i + 1) with
        | '(' :: r3 =>
            match findChar ')' r3 with
            | some j => if j = 0 then none else some (i + 1 + 1 + j + 1, r2.take i)
            | none => none
        | _ => none
  | none => none

/-- Worker for `subMdLinks`, fuelled like `subMdImagesGo`. -/
def subMdLinksGo : Nat → List Char → List Char
  | 0, l => l
  | _ + 1, [] => []
  | fuel + 1, '[' :: rest =>
      match linkAfterBrk rest with
      | some p => p.2 ++ subMdLinksGo fuel (rest.drop p.1)
      | none => '[' :: subMdLinksGo fuel rest
  | fuel + 1, c :: rest => c :: subMdLinksGo fuel rest

/-- `_RE_MD_LINK.sub(r"\1", ·)`: replace every markdown link by its
anchor text. -/
def subMdLinks (l : List Char) : List Char :=
  subMdLinksGo l.length l

/-- `_RE_FRONTMATTER.sub("", ·)`: since the pattern is anchored, at most
the leading block is removed. -/
def stripLeadingFm (l : List Char) : List Char :=
  match fmMatchLen l with
  | some n => l.drop n
  | none => l

/-- The `_RE_MD_SYMBOL` character set. -/
def mdSymbolSet : List Char := ['#', '*', Char.ofNat 96, '_', '~', '-', '>', '|', '/']

/-- `_RE_MD_SYMBOL.sub("", ·)`. -/
def subSymbols (l : List Char) : List Char := l.filter (fun c => !(mdSymbolSet.contains c))

/-- `_RE_WHITESPACE.sub("", ·)`. -/
def removeWs (l : List Char) : List Char := l.filter (fun c => !isPyWs c)

/-- The no-title cleaning chain of `generate_file_path` before
whitespace removal. -/
def cleanContent (content : List Char) : List Char :=
  subSymbols (subMdLinks (subMdImages (stripLeadingFm content)))

/-- The plain text the slug is scanned from: the title verbatim when one
is given and truthy, else the cleaned content; whitespace is removed in
both cases. -/
def slugSource (content : List Char) (title : Option (List Char)) : List Char :=
  removeWs (match title with
    | some t => if t.isEmpty then cleanContent content else t
    | none => cleanContent content)

/-- `generate_file_path` with the two `strftime` components and the
random suffix supplied as the pre-rendered `datePart`/`timePart`. -/
def generate_file_path (content : List Char) (title : Option (List Char))
    (datePart timePart contentType : List Char) : List Char :=
  let slug := first4 (slugSource content title)
  if slug.isEmpty then
    "src/content/".toList ++ contentType ++ "/".toList ++ datePart ++
      "-".toList ++ timePart ++ ".md".toList
  else
    "src/content/".toList ++ contentType ++ "/".toList ++ datePart ++
      "-".toList ++ slug ++ "-".toList ++ timePart ++ ".md".toList

/-! ### github_service.py — remote store as a call trace over an
abstract state

The store state maps a path to the concurrency token (`sha`) of the file
there, if any.  Each service method is embedded as a pure function
returning its result together with the list of HTTP calls it performs,
in order. -/

/-- Abstract remote-store state: path to token of an existing file. -/
def Store := List Char → Option (List Char)

/-- One remote HTTP call.  For `put`, `shaSent` records whether the JSON
body carried a `sha` entry (Python `if sha:`), and `sha` the token it
would carry. -/
inductive RemoteCall where
  | get (path : List Char)
  | put (path : List Char) (shaSent : Bool) (sha : Option (List Char))
  | del (path : List Char) (sha : List Char)
deriving DecidableEq

/-- Whether a call is a `DELETE`. -/
def RemoteCall.isDel : RemoteCall → Bool
  | .del _ _ => true
  | _ => false

/-- Python truthiness of the optional `sha` argument in
`create_or_update_file`: `body["sha"]` is set iff `sha` is a non-empty
string. -/
def shaTruthy : Option (List Char) → Bool
  | some s => !s.isEmpty
  | none => false

/-- Effect of one call on the store: only `DELETE` changes the state
visible to this model (the `put` result token is irrelevant to the
claims and left unmodelled). -/
def applyCall (st : Store) : RemoteCall → Store
  | .del p _ => fun q => if q = p then none else st q
  | _ => st

/-- Effect of a call trace, first call first. -/
def applyTrace (st : Store) (tr : List RemoteCall) : Store :=
  tr.foldl applyCall st

/-- The path `publish_content` generates: `generate_file_path` applied
to the assembled content, with default content type `essays`. -/
def publishPath (body dateStr datePart timePart : List Char) : List Char :=
  generate_file_path (assemble_content body dateStr) none datePart timePart "essays".toList

/-- `GitHubService.publish_content` over store state `st`, with the
rendered timestamp strings supplied: assemble, name, `get`, then `put`
with the discovered token; returns `(path, action)` and the call trace. -/
def publish_content (st : Store) (body dateStr datePart timePart : List Char) :
    (List Char × List Char) × List RemoteCall :=
  let filePath := publishPath body dateStr datePart timePart
  let existing := st filePath
  let actionCap := if existing.isSome then "Update".toList else "Add".toList
  ((filePath, pyLower actionCap),
    [.get filePath, .put filePath (shaTruthy existing) existing])

/-- `GitHubService.delete_file`: `get` first; a missing file raises
(`success = false`) without any further call, otherwise `DELETE` with
the discovered token. -/
def delete_file (st : Store) (path : List Char) : Bool × List RemoteCall :=
  match st path with
  | none => (false, [.get path])
  | some sha => (true, [.get path, .del path sha])

/-! ### handlers.py — delete command -/

/-- The path normalization of `delete_handler` (source lines 142-149). -/
def delete_handler_path (arg : List Char) : List Char :=
  let name := pyStrip isPyWs arg
  let path :=
    if "src/".toList.isPrefixOf name then name
    else "src/content/essays/".toList ++ name
  if ".md".toList.isSuffixOf path then path else path ++ ".md".toList

/-- The user-facing reply of `delete_handler` for a given store state:
`FileNotFoundError` surfaces as the "文件不存在" (file does not exist)
message. -/
def delete_handler_reply (st : Store) (arg : List Char) : List Char :=
  let path := delete_handler_path arg
  if (delete_file st path).1 then "已删除 ✓\n".toList ++ path
  else "文件不存在: ".toList ++ path

/-! ### handlers.py — authorization decorator -/

/-- An inbound update as far as `authorized_only` inspects it: the id of
the effective user, when there is one. -/
structure UpdateMsg where
  userId : Option Nat

/-- The `authorized_only` wrapper over a handler body producing a list
of observable effects (replies, remote calls): a missing user or one
whose id is not allow-listed is rejected silently, the body never runs. -/
def authorized_only {α : Type} (allowed : List Nat)
    (handler : UpdateMsg → List α) (u : UpdateMsg) : List α :=
  match u.userId with
  | none => []
  | some uid => if uid ∈ allowed then handler u else []

/-! ### handlers.py — media-group batching

`photo_handler` appends each grouped photo to the live-groups map and
arms a one-shot 1.5 s timer at the first arrival only;
`_process_media_group` pops the group when the timer fires and performs
one publish.  We model one group: the state holds the arrived items in
order plus the armed deadline, and a timeline of timestamped arrivals is
executed against it, firing the timer as soon as it is due. -/

/-- One grouped photo message: its caption (empty when none) and an
abstract image identifier resolved to a CDN URL by `upload`. -/
structure MediaItem where
  caption : List Char
  imageId : Nat
deriving DecidableEq

/-- The collector state for one media-group id. -/
structure CollectorState where
  group : Option (List MediaItem)
  deadline : Option Nat
deriving DecidableEq

/-- `photo_handler` on a grouped photo at time `t` (milliseconds): the
first arrival creates the group and arms the 1500 ms one-shot timer;
later arrivals only append — the deadline is not touched. -/
def photoArrive (s : CollectorState) (t : Nat) (it : MediaItem) : CollectorState :=
  match s.group with
  | none => { group := some [it], deadline := some (t + 1500) }
  | some xs => { group := some (xs ++ [it]), deadline := s.deadline }

/-- The caption scan of `_process_media_group` (source lines 291-295):
first truthy caption in arrival order, else empty. -/
def firstCaption : List MediaItem → List Char
  | [] => []
  | it :: rest => if it.caption.isEmpty then firstCaption rest else it.caption

/-- The markdown image block: one reference per URL, in order, joined by
blank lines. -/
def imagesMd (urls : List (List Char)) : List Char :=
  List.intercalate "\n\n".toList
    (urls.map (fun u => "![image](".toList ++ u ++ [')']))

/-- The body composed by `_process_media_group`: the selected caption is
included only when it strips to something non-empty. -/
def groupBody (upload : Nat → List Char) (items : List MediaItem) : List Char :=
  let caption := firstCaption items
  let urls := items.map (fun it => upload it.imageId)
  if (pyStrip isPyWs caption).isEmpty then imagesMd urls
  else caption ++ "\n\n".toList ++ imagesMd urls

/-- The timer callback: pop the group (it is removed regardless), and
publish the combined body once — unless nothing had arrived. -/
def fireTimer (upload : Nat → List Char) (s : CollectorState) :
    CollectorState × List (List Char) :=
  match s.group with
  | none => ({ group := none, deadline := none }, [])
  | some items =>
      ({ group := none, deadline := none },
        if items.isEmpty then [] else [groupBody upload items])

/-- Execute timestamped arrivals (in time order) against the collector,
firing the armed timer before an arrival that is no earlier than the
deadline, and firing any still-armed timer after the last arrival.
Returns the bodies passed to `publish_content`, in order. -/
def runTimeline (upload : Nat → List Char) :
    List (Nat × MediaItem) → CollectorState → List (List Char)
  | [], s => (fireTimer upload s).2
  | (t, it) :: rest, s =>
      match s.deadline with
      | some d =>
          if d ≤ t then
            let fired := fireTimer upload s
            fired.2 ++ runTimeline upload rest (photoArrive fired.1 t it)
          else runTimeline upload rest (photoArrive s t it)
      | none => runTimeline upload rest (photoArrive s t it)

/-! ### image_service.py -/

/-- The three constants of `config.py` used by the pipeline. -/
def IMAGE_COMPRESSION_THRESHOLD : Nat := 10 * 1024 * 1024

/-- `config.MAX_FILE_SIZE`. -/
def MAX_FILE_SIZE : Nat := 5 * 1024 * 1024

/-- The image codec (PIL) abstracted: `Img` is a decoded image;
`decodeRGB` is `Image.open` plus `convert("RGB")`, `resizeClamp` the
shrink-only clamp to 1920×1080, `encode img q` the JPEG encoding of
`img` at integer quality `q`, and `heicToWebp` the lossless
HEIC-to-WebP conversion.  Byte strings are `List Nat`. -/
structure ImageCodec (Img : Type) where
  decodeRGB : List Nat → Img
  resizeClamp : Img → Img
  encode : Img → Nat → List Nat
  heicToWebp : List Nat → List Nat

/-- The quality-reduction loop of `_smart_compress` (source lines
67-75), also counting its re-encode iterations.  The 5 % diminishing-
returns test `int(prev_size * 0.95)` is modelled with exact rational
arithmetic as `prev * 95 / 100`. -/
def smartLoop (enc : Nat → List Nat) (target : Nat) :
    Nat → List Nat → List Nat × Nat
  | quality, data =>
      if data.length > target ∧ quality > 10 then
        if (enc (quality - 10)).length > data.length * 95 / 100 then
          (enc (quality - 10), 1)
        else
          ((smartLoop enc target (quality - 10) (enc (quality - 10))).1,
            (smartLoop enc target (quality - 10) (enc (quality - 10))).2 + 1)
      else (data, 0)
termination_by quality _ => quality
decreasing_by all_goals omega

/-- `_smart_compress`, returning the payload and the number of re-encode
iterations the loop performed: decode, clamp, encode at quality 85,
then reduce. -/
def smart_compress {Img : Type} (codec : ImageCodec Img) (b : List Nat) :
    List Nat × Nat :=
  let img := codec.resizeClamp (codec.decodeRGB b)
  smartLoop (codec.encode img) MAX_FILE_SIZE 85 (codec.encode img 85)

/-- `compress_image` with its re-encode iteration count: inputs under
the 10 MiB threshold are only re-encoded once at quality 95. -/
def compress_imageCount {Img : Type} (codec : ImageCodec Img) (b : List Nat) :
    List Nat × Nat :=
  if b.length < IMAGE_COMPRESSION_THRESHOLD then
    (codec.encode (codec.decodeRGB b) 95, 0)
  else smart_compress codec b

/-- `compress_image`. -/
def compress_image {Img : Type} (codec : ImageCodec Img) (b : List Nat) : List Nat :=
  (compress_imageCount codec b).1

/-- The HEIC/HEIF extension test of `image_service.upload_image`. -/
def isHeicExt (ext : List Char) : Bool :=
  pyLower ext = ".heic".toList || pyLower ext = ".heif".toList

/-- `image_service.upload_image`, reduced to the bytes actually handed
to the asset store and the final extension: HEIC/HEIF input is
converted losslessly to WebP, everything else is uploaded verbatim. -/
def upload_image {Img : Type} (codec : ImageCodec Img)
    (imageBytes : List Nat) (ext : List Char) : List Nat × List Char :=
  if isHeicExt ext then (codec.heicToWebp imageBytes, ".webp".toList)
  else (imageBytes, ext)

/-! ### Side conditions for the frontmatter round trip -/

/-- A quote character stripped by `parse_frontmatter`. -/
def isQuoteCh (c : Char) : Bool := c = '"' || c = '\''

/-- No occurrence of `"---"`. -/
def noTriple (l : List Char) : Bool := (findSub3 l).isNone

/-- A key survives the round trip: colon-free, line-break-free, free of
`"---"`, and without surrounding whitespace. -/
def keyOk (k : List Char) : Bool :=
  !(k.contains ':') && k.all (fun c => !isLB c) && noTriple k &&
    k.head?.all (fun c => !isPyWs c) && k.getLast?.all (fun c => !isPyWs c)

/-- A value survives the round trip: line-break-free, free of `"---"`,
and not starting or ending in a quote character. -/
def valOk (v : List Char) : Bool :=
  v.all (fun c => !isLB c) && noTriple v &&
    v.head?.all (fun c => !isQuoteCh c) && v.getLast?.all (fun c => !isQuoteCh c)

/-! ### Claim-side parser specifications -/

/-- Modelled from the claim wording: the value has its surrounding
whitespace stripped and then exactly one layer of matching quote
characters (`"` or `'`) removed. -/
def stripValueClaim (v : List Char) : List Char :=
  let w := pyStrip isPyWs v
  if 2 ≤ w.length && w.head?.all (· = '"') && w.getLast?.all (· = '"') then
    w.tail.dropLast
  else if 2 ≤ w.length && w.head?.all (· = '\'') && w.getLast?.all (· = '\'') then
    w.tail.dropLast
  else w

/-- One interior line under the claim wording: blank lines, `---` lines
and colon-free lines are ignored, the rest split at the first colon. -/
def lineFieldClaim (line : List Char) : Option (List Char × List Char) :=
  let l := pyStrip isPyWs line
  if l = "---".toList || l.isEmpty then none
  else if !l.contains ':' then none
  else
    let kv := partitionColon l
    some (pyStrip isPyWs kv.1, stripValueClaim kv.2)

/-- The parser exactly as the claim words it (single layer of matching
quotes stripped from values). -/
def specParseClaim (content : List Char) : Fields × List Char :=
  match fmMatchLen content with
  | none => ([], content)
  | some n =>
      (((pySplitlines (content.take n)).filterMap lineFieldClaim).foldl
          (fun fs kv => dictInsert fs kv.1 kv.2) [],
        content.drop n)

/-- One interior line under the amended wording: as `lineFieldClaim`,
but values lose any run of double quotes and then any run of single
quotes from each end independently (no matching required). -/
def lineFieldAmended (line : List Char) : Option (List Char × List Char) :=
  let l := pyStrip isPyWs line
  if l = "---".toList || l.isEmpty then none
  else if !l.contains ':' then none
  else
    let kv := partitionColon l
    some (pyStrip isPyWs kv.1, stripValue kv.2)

/-- The parser as the amended claim words it. -/
def specParseAmended (content : List Char) : Fields × List Char :=
  match fmMatchLen content with
  | none => ([], content)
  | some n =>
      (((pySplitlines (content.take n)).filterMap lineFieldAmended).foldl
          (fun fs kv => dictInsert fs kv.1 kv.2) [],
        content.drop n)

/-! ### Concrete instances used by witnesses and counterexamples -/

/-- A store in which every path holds a file with token `"abc"`. -/
def storeAll : Store := fun _ => some "abc".toList

/-- A store holding exactly one file. -/
def storeOne : Store :=
  fun p => if p = "src/content/essays/a.md".toList then some "sha1".toList else none

/-- A concrete instantiation of the abstract codec on raw byte lists:
encoding prepends the quality, HEIC conversion prepends a zero. -/
def toyCodec : ImageCodec (List Nat) where
  decodeRGB := fun b => b
  resizeClamp := fun b => b
  encode := fun img q => q :: img
  heicToWebp := fun b => 0 :: b

/-- An encoder whose output sizes keep every re-encode within 5 % of the
previous attempt. -/
def enc0 : Nat → List Nat := fun q => List.replicate (5700001 + q) 0

/-- An oversized payload (6 000 000 bytes, above the 5 MiB target). -/
def d0 : List Nat := List.replicate 6000000 0

/-- A concrete upload-URL assignment, injective in the image id. -/
def upload0 : Nat → List Char := fun n => 'u' :: List.replicate n 'x'

/-! ## Theorems -/

/-- The character-collecting loop equals filter-then-take. -/
theorem first4Go_eq_filter_take (l : List Char) :
    ∀ k : Nat, first4Go l k = (l.filter (fun c => isCJKAlpha c)).take (4 - k) := by
  induction l with
  | nil => intro k; simp [first4Go]
  | cons c rest ih =>
      intro k
      by_cases hk : k ≥ 4
      · simp [first4Go, hk, Nat.sub_eq_zero_of_le hk]
      · by_cases hc : isCJKAlpha c
        · have h4 : 4 - k = (4 - (k + 1)) + 1 := by omega
          simp [first4Go, hk, hc, List.filter_cons, h4, ih]
        · simp [first4Go, hk, hc, List.filter_cons, ih]

/-- C3: the slug is obtained by scanning the cleaned text character by
character, collecting up to the first 4 characters that are CJK
ideographs (U+4E00–U+9FA5) or ASCII letters and skipping every other
character without counting; in particular `"123!!你好 world"` yields slug
`"你好wo"`, which lands in the generated file path. -/
theorem c3_slug_scan :
    (∀ plain : List Char, first4 plain = (plain.filter (fun c => isCJKAlpha c)).take 4)
    ∧ first4 (slugSource "123!!你好 world".toList none) = "你好wo".toList
    ∧ generate_file_path "123!!你好 world".toList none "2024-03-01".toList
        "091530-123".toList "essays".toList =
        "src/content/essays/2024-03-01-你好wo-091530-123.md".toList := by
  refine ⟨?_, by decide, by decide⟩
  intro plain
  simpa using first4Go_eq_filter_take plain 0

/-- C5 counterexample: for a plain JPEG byte string, the bytes handed to
the asset store by the upload path are the raw input, not the output of
the compression step, already under the concrete toy codec. -/
theorem c5_counterexample :
    (upload_image toyCodec [1, 2] ".jpg".toList).1 ≠ compress_image toyCodec [1, 2] := by
  decide

/-- C5 (amended): the bytes uploaded are the raw downloaded bytes; only
HEIC/HEIF input is transformed, by the lossless WebP conversion — the
ImagePipeline compression step is never applied on the upload path. -/
theorem c5_upload_bypasses_compression {Img : Type} (codec : ImageCodec Img)
    (imageBytes : List Nat) (ext : List Char) :
    (isHeicExt ext = false → upload_image codec imageBytes ext = (imageBytes, ext))
    ∧ (isHeicExt ext = true →
        upload_image codec imageBytes ext = (codec.heicToWebp imageBytes, ".webp".toList)) := by
  constructor <;> intro h <;> simp [upload_image, h]

/-- Witness for C5 (amended) at a concrete non-HEIC input. -/
theorem c5_upload_bypasses_compression_witness :
    upload_image toyCodec [1, 2] ".jpg".toList = ([1, 2], ".jpg".toList) :=
  (c5_upload_bypasses_compression toyCodec [1, 2] ".jpg".toList).1 (by decide)

/-- C10: an update with a missing effective user, or one whose id is not
in the allow-list, is rejected silently by the decorator: the wrapped
handler body never runs and no effect (reply or remote call) is
produced. -/
theorem c10_unauthorized_silent {α : Type} (allowed : List Nat)
    (handler : UpdateMsg → List α) (u : UpdateMsg)
    (h : u.userId = none ∨ ∀ uid, u.userId = some uid → uid ∉ allowed) :
    authorized_only allowed handler u = [] := by
  unfold authorized_only
  cases hu : u.userId with
  | none => rfl
  | some uid =>
      rcases h with h | h
      · rw [hu] at h; exact absurd h (by simp)
      · simp [h uid hu]

/-- Witness for C10 at a concrete unauthorized update. -/
theorem c10_unauthorized_silent_witness :
    authorized_only [5] (fun _ => [1]) ⟨some 7⟩ = ([] : List Nat) :=
  c10_unauthorized_silent [5] (fun _ => [1]) ⟨some 7⟩
    (Or.inr (fun uid h => by
      simp only [UpdateMsg.mk.injEq] at h
      cases h
      decide))

/-- C1: a publish performs the `get` on the generated path first; the
`put` carries a `sha` entry iff a file already existed at that path, and
the reported action is `"update"` iff the path pre-existed, `"add"`
otherwise.  (The store tokens are assumed non-empty strings, as GitHub
blob SHAs are; Python `if sha:` would drop an empty one.) -/
theorem c1_publish_get_then_put (st : Store) (body dateStr datePart timePart : List Char)
    (hsha : ∀ s, st (publishPath body dateStr datePart timePart) = some s → s ≠ []) :
    (publish_content st body dateStr datePart timePart).2 =
        [RemoteCall.get (publishPath body dateStr datePart timePart),
          RemoteCall.put (publishPath body dateStr datePart timePart)
            (shaTruthy (st (publishPath body dateStr datePart timePart)))
            (st (publishPath body dateStr datePart timePart))]
    ∧ (shaTruthy (st (publishPath body dateStr datePart timePart)) = true ↔
        (st (publishPath body dateStr datePart timePart)).isSome = true)
    ∧ ((publish_content st body dateStr datePart timePart).1.2 = "update".toList ↔
        (st (publishPath body dateStr datePart timePart)).isSome = true)
    ∧ ((publish_content st body dateStr datePart timePart).1.2 = "add".toList ↔
        (st (publishPath body dateStr datePart timePart)).isSome = false) := by
  cases hst : st (publishPath body dateStr datePart timePart) with
  | none =>
      refine ⟨by simp [publish_content, hst], by simp [shaTruthy], ?_, ?_⟩ <;>
        (simp [publish_content, hst] <;> decide)
  | some s =>
      have hs : s ≠ [] := hsha s hst
      have htru : shaTruthy (some s) = true := by
        simp [shaTruthy, List.isEmpty_eq_true, hs]
      refine ⟨by simp [publish_content, hst], by simp [htru], ?_, ?_⟩ <;>
        (simp [publish_content, hst] <;> decide)

/-- Witness for C1 at a store where the generated path already exists. -/
theorem c1_publish_get_then_put_witness :
    (publish_content storeAll "hi".toList "D".toList "2024-03-01".toList
        "091530-123".toList).1.2 = "update".toList := by
  have h := c1_publish_get_then_put storeAll "hi".toList "D".toList "2024-03-01".toList
    "091530-123".toList (fun s hsome => by
      simp only [storeAll, Option.some.injEq] at hsome
      cases hsome
      decide)
  exact h.2.2.1.mpr (by simp [storeAll])

/-- C9: deleting a path with no file fails (surfaced to the user as the
"does not exist" message) after the `get` only — no `DELETE` is issued
and the store is untouched; deleting an existing file issues the
`DELETE` carrying the file's current token, which removes it. -/
theorem c9_delete_semantics (st : Store) (arg : List Char) :
    (st (delete_handler_path arg) = none →
        (delete_file st (delete_handler_path arg)).1 = false
        ∧ (∀ c ∈ (delete_file st (delete_handler_path arg)).2, c.isDel = false)
        ∧ (∀ q, applyTrace st (delete_file st (delete_handler_path arg)).2 q = st q)
        ∧ delete_handler_reply st arg = "文件不存在: ".toList ++ delete_handler_path arg)
    ∧ (∀ sha, st (delete_handler_path arg) = some sha →
        (delete_file st (delete_handler_path arg)).1 = true
        ∧ (delete_file st (delete_handler_path arg)).2 =
            [RemoteCall.get (delete_handler_path arg),
              RemoteCall.del (delete_handler_path arg) sha]
        ∧ applyTrace st (delete_file st (delete_handler_path arg)).2
            (delete_handler_path arg) = none) := by
  constructor
  · intro h
    refine ⟨by simp [delete_file, h], ?_, ?_, ?_⟩
    · intro c hc
      simp [delete_file, h] at hc
      simp [hc, RemoteCall.isDel]
    · intro q
      simp [delete_file, h, applyTrace, applyCall]
    · simp [delete_handler_reply, delete_file, h]
  · intro sha h
    refine ⟨by simp [delete_file, h], by simp [delete_file, h], ?_⟩
    simp [delete_file, h, applyTrace, applyCall]

/-- Witness for C9: one existing file is deleted with its token, one
missing file produces the "does not exist" reply. -/
theorem c9_delete_semantics_witness :
    (delete_file storeOne (delete_handler_path "a".toList)).2 =
        [RemoteCall.get "src/content/essays/a.md".toList,
          RemoteCall.del "src/content/essays/a.md".toList "sha1".toList]
    ∧ delete_handler_reply storeOne "b".toList =
        "文件不存在: src/content/essays/b.md".toList := by
  constructor
  · have h := ((c9_delete_semantics storeOne "a".toList).2 "sha1".toList (by decide)).2.1
    exact h.trans (by decide)
  · have h := ((c9_delete_semantics storeOne "b".toList).1 (by decide)).2.2.2
    exact h.trans (by decide)

/-- `setdefault` appends the entry exactly when the key is absent. -/
theorem setdefault_eq (m : Fields) (k v : List Char) :
    setdefault m k v = m ++ if hasKey m k then [] else [(k, v)] := by
  unfold setdefault hasKey
  split <;> simp_all

/-- `hasKey` distributes over append. -/
theorem hasKey_append (a b : Fields) (k : List Char) :
    hasKey (a ++ b) k = (hasKey a k || hasKey b k) := by
  simp [hasKey, List.any_append]

/-- C4: when the body's leading frontmatter parses to a non-empty
mapping, the merge appends `title` and `pubDate` (in that order) only if
absent — no pre-existing key or value is removed, overwritten or
reordered — and both keys are present afterwards; an empty parsed
mapping produces exactly `{title, pubDate}` in that order. -/
theorem c4_merge_preserves_fields (body title dateStr : List Char) :
    ((parse_frontmatter body).1 ≠ [] →
        mergeFields (parse_frontmatter body).1 title dateStr =
            (parse_frontmatter body).1
              ++ (if hasKey (parse_frontmatter body).1 "title".toList then []
                  else [("title".toList, title)])
              ++ (if hasKey (parse_frontmatter body).1 "pubDate".toList then []
                  else [("pubDate".toList, dateStr)])
        ∧ hasKey (mergeFields (parse_frontmatter body).1 title dateStr) "title".toList = true
        ∧ hasKey (mergeFields (parse_frontmatter body).1 title dateStr) "pubDate".toList = true)
    ∧ ((parse_frontmatter body).1 = [] →
        mergeFields (parse_frontmatter body).1 title dateStr =
          [("title".toList, title), ("pubDate".toList, dateStr)]) := by
  constructor
  · intro hne
    have hempty : (parse_frontmatter body).1.isEmpty = false := by
      cases h : (parse_frontmatter body).1 with
      | nil => exact absurd h hne
      | cons a l => rfl
    set m := (parse_frontmatter body).1 with hm
    have hmerge : mergeFields m title dateStr =
        m ++ (if hasKey m "title".toList then [] else [("title".toList, title)])
          ++ (if hasKey m "pubDate".toList then [] else [("pubDate".toList, dateStr)]) := by
      unfold mergeFields
      rw [if_neg (by simp [hempty])]
      rw [setdefault_eq, setdefault_eq, hasKey_append]
      have hnp : hasKey (if hasKey m "title".toList then []
          else [("title".toList, title)]) "pubDate".toList = false := by
        split <;> simp [hasKey]
      rw [hnp, Bool.or_false, List.append_assoc]
    refine ⟨hmerge, ?_, ?_⟩
    · rw [hmerge, hasKey_append, hasKey_append]
      cases ht : hasKey m "title".toList <;> simp [hasKey]
    · rw [hmerge, hasKey_append, hasKey_append]
      cases hp : hasKey m "pubDate".toList <;> simp [hasKey]
  · intro hnil
    simp [mergeFields, hnil]

/-- Witness for C4 at a body with a one-entry frontmatter block and one
with none. -/
theorem c4_merge_preserves_fields_witness :
    mergeFields (parse_frontmatter "---\na: \"1\"\n---\nx".toList).1 "T".toList "D".toList =
        (parse_frontmatter "---\na: \"1\"\n---\nx".toList).1
          ++ (if hasKey (parse_frontmatter "---\na: \"1\"\n---\nx".toList).1 "title".toList
              then [] else [("title".toList, "T".toList)])
          ++ (if hasKey (parse_frontmatter "---\na: \"1\"\n---\nx".toList).1 "pubDate".toList
              then [] else [("pubDate".toList, "D".toList)])
    ∧ mergeFields (parse_frontmatter "plain".toList).1 "T".toList "D".toList =
        [("title".toList, "T".toList), ("pubDate".toList, "D".toList)] := by
  constructor
  · exact ((c4_merge_preserves_fields "---\na: \"1\"\n---\nx".toList "T".toList
      "D".toList).1 (by decide)).1
  · exact (c4_merge_preserves_fields "plain".toList "T".toList "D".toList).2 (by decide)

/-- The re-encode count of the quality loop is bounded by a tenth of the
starting quality. -/
theorem smartLoop_count_le (enc : Nat → List Nat) (target : Nat) :
    ∀ (quality : Nat) (data : List Nat),
      (smartLoop enc target quality data).2 ≤ quality / 10 := by
  intro quality
  induction quality using Nat.strong_induction_on with
  | _ quality ih =>
      intro data
      rw [smartLoop]
      split
      · next hcond =>
          split
          · simp only
            omega
          · simp only
            have h := ih (quality - 10) (by omega) (enc (quality - 10))
            omega
      · simp

/-- C6: compression terminates on every input (the loop is a total
function of the starting quality); starting from quality 85 the loop
performs at most 8 re-encode iterations — `compress_image` as a whole
never exceeds 8 — and a re-encode that shrinks the payload by no more
than 5 % ends the loop immediately with that payload. -/
theorem c6_compress_loop_bound {Img : Type} (codec : ImageCodec Img) (b : List Nat)
    (enc : Nat → List Nat) (q : Nat) (d : List Nat) :
    (compress_imageCount codec b).2 ≤ 8
    ∧ (d.length > MAX_FILE_SIZE → q > 10 →
        (enc (q - 10)).length > d.length * 95 / 100 →
        smartLoop enc MAX_FILE_SIZE q d = (enc (q - 10), 1)) := by
  constructor
  · unfold compress_imageCount
    split
    · simp
    · show (smart_compress codec b).2 ≤ 8
      simp only [smart_compress]
      have h := smartLoop_count_le
        (codec.encode (codec.resizeClamp (codec.decodeRGB b))) MAX_FILE_SIZE 85
        (codec.encode (codec.resizeClamp (codec.decodeRGB b)) 85)
      omega
  · intro h1 h2 h3
    rw [smartLoop, if_pos ⟨h1, h2⟩, if_pos h3]

/-- Witness for C6's early-stop clause at a concrete oversized payload
and encoder. -/
theorem c6_compress_loop_bound_witness :
    smartLoop enc0 MAX_FILE_SIZE 85 d0 = (enc0 75, 1) := by
  have h := (c6_compress_loop_bound toyCodec [] enc0 85 d0).2
  have h1 : d0.length > MAX_FILE_SIZE := by
    simp only [d0, MAX_FILE_SIZE, List.length_replicate]
    norm_num
  have h3 : (enc0 (85 - 10)).length > d0.length * 95 / 100 := by
    simp only [enc0, d0, List.length_replicate]
    norm_num
  simpa using h h1 (by norm_num) h3

/-- While the deadline has not been reached, later arrivals only append
to the group; the timer fires once afterwards with every arrived item. -/
theorem runTimeline_collect (upload : Nat → List Char) :
    ∀ (rest : List (Nat × MediaItem)) (items : List MediaItem) (d : Nat),
      items ≠ [] → (∀ p ∈ rest, p.1 < d) →
      runTimeline upload rest ⟨some items, some d⟩ =
        [groupBody upload (items ++ rest.map (fun p => p.2))] := by
  intro rest
  induction rest with
  | nil =>
      intro items d hne _
      simp [runTimeline, fireTimer, List.isEmpty_eq_true, hne]
  | cons p rest ih =>
      intro items d hne hlt
      obtain ⟨t, it⟩ := p
      have ht : ¬ d ≤ t := Nat.not_le.mpr (hlt (t, it) (by simp))
      have hstep : runTimeline upload ((t, it) :: rest) ⟨some items, some d⟩ =
          runTimeline upload rest (photoArrive ⟨some items, some d⟩ t it) := by
        simp [runTimeline, ht]
      have harr : photoArrive ⟨some items, some d⟩ t it =
          ⟨some (items ++ [it]), some d⟩ := by simp [photoArrive]
      rw [hstep, harr, ih (items ++ [it]) d (by simp) (fun q hq => hlt q (by simp [hq]))]
      simp

/-- C2 counterexample: when the first non-empty caption is the blank
string `" "`, the published body contains no caption at all — it is not
the claimed `caption ++ blank line ++ images`. -/
theorem c2_blank_caption_counterexample :
    runTimeline upload0 [(0, ⟨" ".toList, 1⟩)] ⟨none, none⟩ = [imagesMd [upload0 1]]
    ∧ firstCaption [⟨" ".toList, 1⟩] = " ".toList
    ∧ imagesMd [upload0 1] ≠ " ".toList ++ "\n\n".toList ++ imagesMd [upload0 1] := by
  refine ⟨by decide, by decide, by decide⟩

/-- C2 (amended): when every item of a media group arrives strictly
within the 1.5 s window armed at the first arrival (the deadline is not
reset by later arrivals), the deadline fires exactly once and exactly
one publish is made; its body carries one markdown image reference per
item in arrival order, prefixed by the first non-empty caption in
arrival order provided that caption is not whitespace-only (a
whitespace-only selected caption is dropped). -/
theorem c2_batch_single_publish (upload : Nat → List Char) (t0 : Nat) (it0 : MediaItem)
    (rest : List (Nat × MediaItem))
    (hwin : ∀ p ∈ rest, t0 ≤ p.1 ∧ p.1 < t0 + 1500) :
    runTimeline upload ((t0, it0) :: rest) ⟨none, none⟩ =
        [if (pyStrip isPyWs (firstCaption (it0 :: rest.map (fun p => p.2)))).isEmpty then
            imagesMd ((it0 :: rest.map (fun p => p.2)).map (fun it => upload it.imageId))
          else
            firstCaption (it0 :: rest.map (fun p => p.2)) ++ "\n\n".toList ++
              imagesMd ((it0 :: rest.map (fun p => p.2)).map (fun it => upload it.imageId))]
    ∧ (((t0, it0) :: rest).foldl (fun s p => photoArrive s p.1 p.2)
          ⟨none, none⟩).deadline = some (t0 + 1500) := by
  constructor
  · have h1 : runTimeline upload ((t0, it0) :: rest) ⟨none, none⟩ =
        runTimeline upload rest ⟨some [it0], some (t0 + 1500)⟩ := by
      simp [runTimeline, photoArrive]
    rw [h1, runTimeline_collect upload rest [it0] (t0 + 1500) (by simp)
      (fun p hp => (hwin p hp).2)]
    simp [groupBody]
  · have hfold : ∀ (l : List (Nat × MediaItem)) (xs : List MediaItem) (d : Nat),
        (l.foldl (fun s p => photoArrive s p.1 p.2) ⟨some xs, some d⟩).deadline = some d := by
      intro l
      induction l with
      | nil => intro xs d; rfl
      | cons p l ih =>
          intro xs d
          have : photoArrive ⟨some xs, some d⟩ p.1 p.2 =
              ⟨some (xs ++ [p.2]), some d⟩ := by simp [photoArrive]
          simp only [List.foldl_cons, this]
          exact ih _ _
    have harm : photoArrive ⟨none, none⟩ t0 it0 = ⟨some [it0], some (t0 + 1500)⟩ := by
      simp [photoArrive]
    simp only [List.foldl_cons, harm]
    exact hfold rest [it0] (t0 + 1500)

/-- Witness for C2 (amended): three photos arriving at 0 ms, 400 ms and
1400 ms, the second carrying the caption. -/
theorem c2_batch_single_publish_witness :
    runTimeline upload0
        [(0, ⟨[], 1⟩), (400, ⟨"hi".toList, 2⟩), (1400, ⟨[], 3⟩)] ⟨none, none⟩ =
      ["hi\n\n![image](ux)\n\n![image](uxx)\n\n![image](uxxx)".toList] := by
  have h := (c2_batch_single_publish upload0 0 ⟨[], 1⟩
    [(400, ⟨"hi".toList, 2⟩), (1400, ⟨[], 3⟩)] (by decide)).1
  exact h.trans (by decide)

/-- One interior-line step of the source parser agrees with the amended
line specification. -/
theorem parseLineStep_eq_amended (fs : Fields) (line : List Char) :
    parseLineStep fs line =
      match lineFieldAmended line with
      | none => fs
      | some kv => dictInsert fs kv.1 kv.2 := by
  simp only [parseLineStep, lineFieldAmended]
  by_cases h1 : pyStrip isPyWs line = ['-', '-', '-'] ∨ pyStrip isPyWs line = []
  · simp [h1]
  · by_cases h2 : ':' ∈ pyStrip isPyWs line
    · simp [h1, h2]
    · simp [h1, h2]

/-- Folding the source line loop equals folding the amended
specification's filtered key/value pairs. -/
theorem foldl_parseLineStep_eq (lines : List (List Char)) :
    ∀ fs : Fields,
      lines.foldl parseLineStep fs =
        (lines.filterMap lineFieldAmended).foldl
          (fun fs kv => dictInsert fs kv.1 kv.2) fs := by
  induction lines with
  | nil => intro fs; rfl
  | cons line lines ih =>
      intro fs
      rw [List.foldl_cons, parseLineStep_eq_amended]
      cases h : lineFieldAmended line with
      | none => simp [List.filterMap_cons, h, ih]
      | some kv => simp [List.filterMap_cons, h, List.foldl_cons, ih]

/-- C8 counterexample: a value written `""v""` has every surrounding
run of quotes stripped (yielding `v`), not a single matching layer
(which would yield `"v"`). -/
theorem c8_counterexample :
    parse_frontmatter "---\nk: \"\"v\"\"\n---\nbody".toList ≠
      specParseClaim "---\nk: \"\"v\"\"\n---\nbody".toList := by
  decide

/-- C8 (amended): the parser splits each interior line at the first
colon and strips from the value its surrounding whitespace, then any
leading/trailing run of `"` and then of `'`, each end independently
with no matching required; blank lines, `---` lines and colon-free
lines are ignored; and content with no leading block parses to an empty
mapping with the content returned unchanged. -/
theorem c8_parse_line_semantics (content : List Char) :
    parse_frontmatter content = specParseAmended content
    ∧ (fmMatchLen content = none → parse_frontmatter content = ([], content)) := by
  constructor
  · unfold parse_frontmatter specParseAmended
    cases h : fmMatchLen content with
    | none => rfl
    | some n => simp [foldl_parseLineStep_eq]
  · intro h
    simp [parse_frontmatter, h]

/-- Witness for C8 (amended): blockless content parses to an empty
mapping with the body unchanged. -/
theorem c8_parse_line_semantics_witness :
    parse_frontmatter "plain text".toList = ([], "plain text".toList) :=
  (c8_parse_line_semantics "plain text".toList).2 (by decide)

/-- Scanning for `"---"` steps over a triple-free part followed by a
non-dash separator: a triple cannot span the separator. -/
theorem findSub3_sep (s : Char) (hs : s ≠ '-') :
    ∀ (line rest : List Char), findSub3 line = none →
      findSub3 (line ++ s :: rest) = (findSub3 rest).map (· + (line.length + 1)) := by
  intro line
  induction line with
  | nil =>
      intro rest _
      have h3 : ¬ (s :: rest).take 3 = ['-', '-', '-'] := by
        cases rest with
        | nil => simp
        | cons b t => cases t <;> simp [hs]
      simp only [List.nil_append, findSub3]
      rw [if_neg h3]
      simp
  | cons c line ih =>
      intro rest h
      simp only [findSub3] at h
      by_cases h3 : (c :: line).take 3 = ['-', '-', '-']
      · rw [if_pos h3] at h; exact absurd h (by simp)
      · rw [if_neg h3] at h
        have hline : findSub3 line = none := by
          cases hf : findSub3 line with
          | none => rfl
          | some j => rw [hf] at h; simp at h
        have hg3 : ¬ ((c :: line) ++ s :: rest).take 3 = ['-', '-', '-'] := by
          cases line with
          | nil =>
              simp
              intro _ hbad
              exact absurd hbad hs
          | cons c2 line2 =>
              cases line2 with
              | nil =>
                  simp
                  intro _ _ hbad
                  exact absurd hbad hs
              | cons c3 line3 =>
                  intro hbad
                  apply h3
                  simp at hbad ⊢
                  exact hbad
        rw [List.cons_append, findSub3]
        rw [if_neg (by simpa using hg3)]
        rw [show line ++ s :: rest = line ++ s :: rest from rfl, ih rest hline]
        cases findSub3 rest with
        | none => simp
        | some j => simp; omega

/-- `joinNl` on a list with a non-empty tail. -/
theorem joinNl_cons (x : List Char) (xs : List (List Char)) (h : xs ≠ []) :
    joinNl (x :: xs) = x ++ '\n' :: joinNl xs := by
  cases xs with
  | nil => exact absurd rfl h
  | cons y ys => rfl

/-- `joinNl` with a single element appended. -/
theorem joinNl_append_single (xs : List (List Char)) (y : List Char) (h : xs ≠ []) :
    joinNl (xs ++ [y]) = joinNl xs ++ '\n' :: y := by
  induction xs with
  | nil => exact absurd rfl h
  | cons x xs ih =>
      cases xs with
      | nil => simp [joinNl]
      | cons x2 xs2 =>
          rw [List.cons_append, joinNl_cons x ((x2 :: xs2) ++ [y]) (by simp),
            joinNl_cons x (x2 :: xs2) (by simp), ih (by simp)]
          simp

/-- Scanning for `"---"` steps over a newline-joined list of triple-free
lines. -/
theorem findSub3_joined (lines : List (List Char)) (X : List Char)
    (h : ∀ l ∈ lines, findSub3 l = none) :
    findSub3 (joinNl lines ++ '\n' :: X) =
      (findSub3 X).map (· + ((joinNl lines).length + 1)) := by
  induction lines with
  | nil => simpa using findSub3_sep '\n' (by decide) [] X rfl
  | cons x xs ih =>
      cases xs with
      | nil => simpa using findSub3_sep '\n' (by decide) x X (h x (by simp))
      | cons x2 xs2 =>
          rw [joinNl_cons x (x2 :: xs2) (by simp), List.append_assoc, List.cons_append]
          rw [findSub3_sep '\n' (by decide) x _ (h x (by simp))]
          rw [ih (fun l hl => h l (by simp [hl]))]
          cases findSub3 X with
          | none => simp
          | some j => simp; omega

/-- A newline-free string is one segment. -/
theorem splitSegs_no_nl (a : List Char) (h : '\n' ∉ a) : splitSegs a = [a] := by
  induction a with
  | nil => rfl
  | cons c a ih =>
      have hc : ¬ c = '\n' := fun e => h (by simp [e])
      have ha : '\n' ∉ a := fun e => h (by simp [e])
      simp [splitSegs, hc, ih ha]

/-- Splitting walks through a leading newline-free segment. -/
theorem splitSegs_append_nl (a b : List Char) (h : '\n' ∉ a) :
    splitSegs (a ++ '\n' :: b) = a :: splitSegs b := by
  induction a with
  | nil => simp [splitSegs]
  | cons c a ih =>
      have hc : ¬ c = '\n' := fun e => h (by simp [e])
      have ha : '\n' ∉ a := fun e => h (by simp [e])
      simp [splitSegs, hc, ih ha]

/-- Splitting walks through a joined list of newline-free lines. -/
theorem splitSegs_joinNl (lines : List (List Char)) (b : List Char)
    (hne : lines ≠ []) (h : ∀ l ∈ lines, '\n' ∉ l) :
    splitSegs (joinNl lines ++ '\n' :: b) = lines ++ splitSegs b := by
  induction lines with
  | nil => exact absurd rfl hne
  | cons x xs ih =>
      cases xs with
      | nil => simpa [joinNl] using splitSegs_append_nl x b (h x (by simp))
      | cons x2 xs2 =>
          rw [joinNl_cons x (x2 :: xs2) (by simp), List.append_assoc, List.cons_append,
            splitSegs_append_nl x _ (h x (by simp)),
            ih (by simp) (fun l hl => h l (by simp [hl]))]
          simp

/-- One step of the normalizer on a non-boundary head. -/
theorem normNl_cons_ne (c : Char) (l : List Char) (hlb : isLB c = false) :
    normNl (c :: l) = c :: normNl l := by
  have hc : ¬ c = '\r' := by
    intro e
    subst e
    exact absurd hlb (by decide)
  cases l with
  | nil => simp [normNl, hc, hlb]
  | cons d t =>
      by_cases hd : d = '\n'
      · subst hd; simp [normNl, hc, hlb]
      · simp [normNl, hc, hlb, hd]

/-- One step of the normalizer on a newline head. -/
theorem normNl_cons_nl (l : List Char) : normNl ('\n' :: l) = '\n' :: normNl l := by
  cases l with
  | nil => rfl
  | cons d t =>
      by_cases hd : d = '\n'
      · subst hd; simp [normNl]
      · simp [normNl, hd]

/-- Input whose only boundary characters are plain newlines is left
unchanged by the normalizer. -/
theorem normNl_eq_self (l : List Char) (h : ∀ c ∈ l, c = '\n' ∨ isLB c = false) :
    normNl l = l := by
  induction l with
  | nil => rfl
  | cons c l ih =>
      have hl : ∀ x ∈ l, x = '\n' ∨ isLB x = false := fun x hx => h x (by simp [hx])
      rcases h c (by simp) with rfl | hc
      · rw [normNl_cons_nl, ih hl]
      · rw [normNl_cons_ne c l hc, ih hl]

/-- Every character of a joined line list is a newline or a character of
one of the lines. -/
theorem mem_joinNl (lines : List (List Char)) (c : Char) (h : c ∈ joinNl lines) :
    c = '\n' ∨ ∃ l ∈ lines, c ∈ l := by
  induction lines with
  | nil => simp [joinNl] at h
  | cons x xs ih =>
      cases xs with
      | nil =>
          right
          exact ⟨x, by simp, by simpa [joinNl] using h⟩
      | cons x2 xs2 =>
          rw [joinNl_cons x (x2 :: xs2) (by simp)] at h
          rcases List.mem_append.mp h with h | h
          · right; exact ⟨x, by simp, h⟩
          · rcases List.mem_cons.mp h with h | h
            · left; exact h
            · rcases ih h with h | ⟨l, hl, hcl⟩
              · left; exact h
              · right; exact ⟨l, by simp [hl], hcl⟩

/-- `pyStrip` is the identity when neither boundary character matches. -/
theorem pyStrip_no_op (p : Char → Bool) (l : List Char)
    (h1 : ∀ c, l.head? = some c → p c = false)
    (h2 : ∀ c, l.getLast? = some c → p c = false) :
    pyStrip p l = l := by
  unfold pyStrip
  cases l with
  | nil => rfl
  | cons a t =>
      have ha : p a = false := h1 a rfl
      rw [List.dropWhile_cons, if_neg (by simp [ha])]
      cases hr : (a :: t).reverse with
      | nil => simp at hr
      | cons b rb =>
          have hb : (a :: t).getLast? = some b := by
            rw [← List.head?_reverse, hr]
            rfl
          rw [List.dropWhile_cons, if_neg (by simp [h2 b hb]), ← hr,
            List.reverse_reverse]

/-- Unpack an `Option.all` fact. -/
theorem option_all_spec {p : Char → Bool} {o : Option Char} (h : o.all p = true) :
    ∀ c, o = some c → p c = true := by
  intro c e
  subst e
  simpa [Option.all] using h

/-- Stripping a matching leading character reduces to the tail. -/
theorem pyStrip_cons_of_pos (p : Char → Bool) (x : Char) (l : List Char)
    (hx : p x = true) : pyStrip p (x :: l) = pyStrip p l := by
  unfold pyStrip
  rw [List.dropWhile_cons, if_pos (by simp [hx])]

/-- Splitting at the first colon of `key ++ ":" ++ rest`. -/
theorem partitionColon_split : ∀ (k : List Char), ':' ∉ k → ∀ r : List Char,
    partitionColon (k ++ ':' :: r) = (k, r) := by
  intro k
  induction k with
  | nil =>
      intro _ r
      simp [partitionColon]
  | cons c k ih =>
      intro h r
      have hc : ¬ c = ':' := fun e => h (by simp [e])
      have hk : ':' ∉ k := fun e => h (by simp [e])
      have hih := ih hk r
      simp only [partitionColon, Prod.mk.injEq] at hih ⊢
      rw [List.cons_append, List.takeWhile_cons, if_pos (by simp [hc])]
      refine ⟨by rw [hih.1], ?_⟩
      simpa [hih.1] using hih.2

/-- The value cleaning chain recovers `v` from its serialized form
`' ' :: '"' :: v ++ '"'` when `v` has no quote character at either
boundary. -/
theorem stripValue_wrapped (v : List Char)
    (hh : ∀ c, v.head? = some c → isQuoteCh c = false)
    (hl : ∀ c, v.getLast? = some c → isQuoteCh c = false) :
    stripValue (' ' :: '"' :: (v ++ ['"'])) = v := by
  have hws : pyStrip isPyWs (' ' :: '"' :: (v ++ ['"'])) = '"' :: (v ++ ['"']) := by
    rw [pyStrip_cons_of_pos isPyWs ' ' _ (by decide)]
    apply pyStrip_no_op
    · intro c e
      cases v with
      | nil => simp at e; subst e; decide
      | cons a t => simp at e; subst e; decide
    · intro c e
      rw [show '"' :: (v ++ ['"']) = ('"' :: v) ++ ['"'] by simp,
        List.getLast?_concat] at e
      cases e
      decide
  have hq : pyStrip (fun c => c = '"') ('"' :: (v ++ ['"'])) = v := by
    rw [pyStrip_cons_of_pos _ '"' _ (by simp)]
    cases v with
    | nil => decide
    | cons a t =>
        have ha : (a = '"') = False := by
          have := hh a rfl
          simp [isQuoteCh] at this
          simp [this.1]
        unfold pyStrip
        rw [List.cons_append, List.dropWhile_cons, if_neg (by simp [ha])]
        rw [show a :: (t ++ ['"']) = (a :: t) ++ ['"'] by simp, List.reverse_append]
        rw [show ['"'].reverse ++ (a :: t).reverse = '"' :: (a :: t).reverse by simp]
        rw [List.dropWhile_cons, if_pos (by simp)]
        cases hr : (a :: t).reverse with
        | nil => simp at hr
        | cons b rb =>
            have hb : (a :: t).getLast? = some b := by
              rw [← List.head?_reverse, hr]
              rfl
            have hbq : (b = '"') = False := by
              have := hl b hb
              simp [isQuoteCh] at this
              simp [this.1]
            rw [List.dropWhile_cons, if_neg (by simp [hbq]), ← hr,
              List.reverse_reverse]
  have hap : pyStrip (fun c => c = '\'') v = v := by
    apply pyStrip_no_op
    · intro c e
      have := hh c e
      simp [isQuoteCh] at this
      simp [this.2]
    · intro c e
      have := hl c e
      simp [isQuoteCh] at this
      simp [this.2]
  show pyStrip (fun c => c = '\'') (pyStrip (fun c => c = '"')
      (pyStrip isPyWs (' ' :: '"' :: (v ++ ['"'])))) = v
  rw [hws, hq, hap]

/-- Parsing one serialized `key: "value"` line inserts exactly that
pair. -/
theorem parseLineStep_fieldLine (fs : Fields) (k v : List Char)
    (hk : keyOk k = true) (hv : valOk v = true) :
    parseLineStep fs (fieldLine (k, v)) = dictInsert fs k v := by
  have hkparts := hk
  simp only [keyOk, Bool.and_eq_true] at hkparts
  obtain ⟨⟨⟨⟨hk1, hk2⟩, hk3⟩, hk4⟩, hk5⟩ := hkparts
  have hvparts := hv
  simp only [valOk, Bool.and_eq_true] at hvparts
  obtain ⟨⟨⟨hv1, hv2⟩, hv3⟩, hv4⟩ := hvparts
  have hform : fieldLine (k, v) = k ++ ':' :: (' ' :: '"' :: (v ++ ['"'])) := by
    simp [fieldLine]
  have hmem : ':' ∈ fieldLine (k, v) := by
    rw [hform]
    exact List.mem_append.mpr (Or.inr (by simp))
  have hstrip : pyStrip isPyWs (fieldLine (k, v)) = fieldLine (k, v) := by
    apply pyStrip_no_op
    · intro c e
      rw [hform] at e
      cases k with
      | nil =>
          simp at e
          subst e
          decide
      | cons a t =>
          simp at e
          subst e
          have := option_all_spec hk4 a rfl
          simpa using this
    · intro c e
      rw [hform, show k ++ ':' :: (' ' :: '"' :: (v ++ ['"'])) =
        (k ++ ':' :: ' ' :: '"' :: v) ++ ['"'] by simp, List.getLast?_concat] at e
      cases e
      decide
  have hne1 : ¬ fieldLine (k, v) = ['-', '-', '-'] := by
    intro e
    rw [e] at hmem
    simp at hmem
  have hne2 : ¬ fieldLine (k, v) = [] := by
    intro e
    rw [e] at hmem
    simp at hmem
  have hkcol : ':' ∉ k := by simpa using hk1
  simp only [parseLineStep, hstrip]
  rw [if_neg (by simp [hne1, hne2])]
  rw [if_neg (by simp [hmem])]
  rw [hform, partitionColon_split k hkcol (' ' :: '"' :: (v ++ ['"']))]
  have hkey : pyStrip isPyWs k = k := by
    apply pyStrip_no_op
    · intro c e
      simpa using option_all_spec hk4 c e
    · intro c e
      simpa using option_all_spec hk5 c e
  have hval : stripValue (' ' :: '"' :: (v ++ ['"'])) = v := by
    apply stripValue_wrapped
    · intro c e
      simpa using option_all_spec hv3 c e
    · intro c e
      simpa using option_all_spec hv4 c e
  rw [show (k, ' ' :: '"' :: (v ++ ['"'])).1 = k from rfl]
  rw [show (k, ' ' :: '"' :: (v ++ ['"'])).2 = ' ' :: '"' :: (v ++ ['"']) from rfl]
  rw [hkey, hval]

/-- A `---` delimiter line is skipped by the line loop. -/
theorem parseLineStep_dashes (fs : Fields) : parseLineStep fs ['-', '-', '-'] = fs := by
  have h : pyStrip isPyWs ['-', '-', '-'] = ['-', '-', '-'] := by decide
  simp [parseLineStep, h]

/-- A blank line is skipped by the line loop. -/
theorem parseLineStep_nil (fs : Fields) : parseLineStep fs [] = fs := by
  simp [parseLineStep, pyStrip]

/-- Folding the line loop over serialized field lines appends exactly
those fields, provided keys are distinct and absent from the
accumulator. -/
theorem foldl_fieldLines : ∀ (f : Fields) (fs : Fields),
    (f.map Prod.fst).Nodup →
    (∀ kv ∈ f, keyOk kv.1 = true ∧ valOk kv.2 = true) →
    (∀ kv ∈ f, hasKey fs kv.1 = false) →
    (f.map fieldLine).foldl parseLineStep fs = fs ++ f := by
  intro f
  induction f with
  | nil => intro fs _ _ _; simp
  | cons kv f ih =>
      intro fs hnodup hok hdis
      obtain ⟨k, v⟩ := kv
      rw [List.map_cons, List.foldl_cons,
        parseLineStep_fieldLine fs k v (hok (k, v) (by simp)).1 (hok (k, v) (by simp)).2]
      have hkfs : hasKey fs k = false := hdis (k, v) (by simp)
      simp only [hasKey] at hkfs
      have hins : dictInsert fs k v = fs ++ [(k, v)] := by
        unfold dictInsert
        rw [if_neg (by simp [hkfs])]
      rw [hins]
      simp only [List.map_cons, List.nodup_cons] at hnodup
      rw [ih (fs ++ [(k, v)]) hnodup.2 (fun kv h => hok kv (by simp [h])) ?_]
      · simp
      · intro kv' h'
        rw [hasKey_append]
        have h1 : hasKey fs kv'.1 = false := hdis kv' (by simp [h'])
        have h2 : hasKey [(k, v)] kv'.1 = false := by
          simp only [hasKey, List.any_cons, List.any_nil, Bool.or_false]
          simp only [decide_eq_false_iff_not]
          intro e
          exact hnodup.1 (e ▸ List.mem_map_of_mem Prod.fst h')
        rw [h1, h2]
        rfl

/-- A serialized field line contains no occurrence of `"---"` when its
key and value do not. -/
theorem fieldLine_no_triple (k v : List Char) (hk : keyOk k = true)
    (hv : valOk v = true) : findSub3 (fieldLine (k, v)) = none := by
  have hkt : findSub3 k = none := by
    have := hk
    simp only [keyOk, Bool.and_eq_true] at this
    simpa [noTriple, Option.isNone_iff_eq_none] using this.1.1.2
  have hvt : findSub3 v = none := by
    have := hv
    simp only [valOk, Bool.and_eq_true] at this
    simpa [noTriple, Option.isNone_iff_eq_none] using this.1.1.2
  rw [show fieldLine (k, v) = k ++ ':' :: (' ' :: '"' :: (v ++ ['"'])) by
    simp [fieldLine]]
  rw [findSub3_sep ':' (by decide) k _ hkt]
  rw [show (' ' :: '"' :: (v ++ ['"'])) = [] ++ ' ' :: ('"' :: (v ++ ['"'])) from rfl]
  rw [findSub3_sep ' ' (by decide) [] _ rfl]
  rw [show ('"' :: (v ++ ['"'])) = [] ++ '"' :: (v ++ ['"']) from rfl]
  rw [findSub3_sep '"' (by decide) [] _ rfl]
  rw [show v ++ ['"'] = v ++ '"' :: [] from rfl]
  rw [findSub3_sep '"' (by decide) v [] hvt]
  rfl

/-- A serialized field line contains no line break when its key and
value do not. -/
theorem fieldLine_no_lb (k v : List Char)
    (hk2 : ∀ x ∈ k, isLB x = false) (hv1 : ∀ x ∈ v, isLB x = false) :
    ∀ c ∈ fieldLine (k, v), isLB c = false := by
  intro c hc
  simp [fieldLine] at hc
  rcases hc with hc | rfl | rfl | rfl | hc | rfl
  · exact hk2 c hc
  · decide
  · decide
  · decide
  · exact hv1 c hc
  · decide

/-- The serialized block, decomposed around its joined interior. -/
theorem serializeFields_shape (f : Fields) (hne : f ≠ []) :
    serializeFields f =
      ['-', '-', '-'] ++ ('\n' :: (joinNl (f.map fieldLine) ++ '\n' ::
        (['-', '-', '-'] ++ ['\n', '\n']))) := by
  have hlne : f.map fieldLine ≠ [] := by simpa using hne
  unfold serializeFields
  rw [List.cons_append,
    joinNl_cons "---".toList (f.map fieldLine ++ ["---".toList]) (by simp),
    joinNl_append_single (f.map fieldLine) "---".toList hlne]
  simp

/-- The frontmatter pattern matches the whole serialized block. -/
theorem fmMatchLen_serialize (f : Fields) (hne : f ≠ [])
    (hfl : ∀ kv ∈ f, findSub3 (fieldLine kv) = none) :
    fmMatchLen (serializeFields f) = some ((serializeFields f).length) := by
  have hs := serializeFields_shape f hne
  have hfind : findSub3 ('\n' :: (joinNl (f.map fieldLine) ++ '\n' ::
      (['-', '-', '-'] ++ ['\n', '\n']))) =
      some ((joinNl (f.map fieldLine)).length + 2) := by
    have h1 := findSub3_sep '\n' (by decide) []
      (joinNl (f.map fieldLine) ++ '\n' :: (['-', '-', '-'] ++ ['\n', '\n'])) rfl
    have h2 := findSub3_joined (f.map fieldLine) (['-', '-', '-'] ++ ['\n', '\n'])
      (fun l hl => by
        obtain ⟨kv, hkv, rfl⟩ := List.mem_map.mp hl
        exact hfl kv hkv)
    have h3 : findSub3 (['-', '-', '-'] ++ ['\n', '\n']) = some 0 := by decide
    rw [h3] at h2
    rw [List.nil_append] at h1
    rw [h2] at h1
    simpa using h1
  rw [hs]
  simp only [fmMatchLen]
  rw [if_pos (by simp)]
  simp only [show (['-', '-', '-'] ++ ('\n' :: (joinNl (f.map fieldLine) ++ '\n' ::
      (['-', '-', '-'] ++ ['\n', '\n'])))).drop 3 =
      '\n' :: (joinNl (f.map fieldLine) ++ '\n' ::
        (['-', '-', '-'] ++ ['\n', '\n'])) by simp, hfind]
  have hdd : ('\n' :: (joinNl (f.map fieldLine) ++ '\n' ::
      (['-', '-', '-'] ++ ['\n', '\n']))).drop
        ((joinNl (f.map fieldLine)).length + 2 + 3) = ['\n', '\n'] := by
    rw [show (joinNl (f.map fieldLine)).length + 2 + 3 =
      ((joinNl (f.map fieldLine)).length + 4) + 1 by omega]
    rw [List.drop_succ_cons, List.drop_append 4]
    rfl
  rw [hdd]
  have hnr : nlRun ['\n', '\n'] = 2 := by decide
  rw [hnr]
  simp [List.length_append]
  omega

/-- Splitting the serialized block into lines: the delimiters, one line
per field, and the final empty segment kept by `splitlines` for the
blank separator line. -/
theorem pySplitlines_serialize (f : Fields) (hne : f ≠ [])
    (hlb : ∀ kv ∈ f, ∀ c ∈ fieldLine kv, isLB c = false) :
    pySplitlines (serializeFields f) =
      ['-', '-', '-'] :: f.map fieldLine ++ [['-', '-', '-'], []] := by
  have hshape := serializeFields_shape f hne
  have hlne : f.map fieldLine ≠ [] := by simpa using hne
  have hnr : ∀ c ∈ serializeFields f, c = '\n' ∨ isLB c = false := by
    rw [hshape]
    intro c hmem
    rcases List.mem_append.mp hmem with h | h
    · right
      have hd : c = '-' := by simpa using h
      subst hd
      decide
    · rcases List.mem_cons.mp h with h | h
      · left; exact h
      · rcases List.mem_append.mp h with h | h
        · rcases mem_joinNl _ _ h with h | ⟨l, hl, hcl⟩
          · left; exact h
          · obtain ⟨kv, hkv, rfl⟩ := List.mem_map.mp hl
            right
            exact hlb kv hkv c hcl
        · rcases List.mem_cons.mp h with h | h
          · left; exact h
          · rcases List.mem_append.mp h with h | h
            · right
              have hd : c = '-' := by simpa using h
              subst hd
              decide
            · left
              simpa using h
  have hlinesnl : ∀ l ∈ f.map fieldLine, '\n' ∉ l := by
    intro l hl
    obtain ⟨kv, hkv, rfl⟩ := List.mem_map.mp hl
    intro hc
    have := hlb kv hkv '\n' hc
    simp [isLB] at this
  have hsegs : splitSegs (serializeFields f) =
      ['-', '-', '-'] :: (f.map fieldLine ++ [['-', '-', '-'], [], []]) := by
    rw [hshape, splitSegs_append_nl ['-', '-', '-'] _ (by decide),
      splitSegs_joinNl (f.map fieldLine) _ hlne hlinesnl,
      show splitSegs (['-', '-', '-'] ++ ['\n', '\n']) = [['-', '-', '-'], [], []]
        by decide]
  have hie : (serializeFields f).isEmpty = false := by
    rw [hshape]
    rfl
  unfold pySplitlines
  rw [if_neg (by simp [hie]), normNl_eq_self _ hnr, hsegs]
  have hconcat : (['-', '-', '-'] :: (f.map fieldLine ++ [['-', '-', '-'], [], []]))
      = (['-', '-', '-'] :: (f.map fieldLine ++ [['-', '-', '-'], []])) ++ [[]] := by
    simp
  show (if (['-', '-', '-'] :: (f.map fieldLine ++ [['-', '-', '-'], [], []])).getLast?
          = some [] then
        (['-', '-', '-'] :: (f.map fieldLine ++ [['-', '-', '-'], [], []])).dropLast
      else ['-', '-', '-'] :: (f.map fieldLine ++ [['-', '-', '-'], [], []])) =
    ['-', '-', '-'] :: f.map fieldLine ++ [['-', '-', '-'], []]
  rw [hconcat, List.getLast?_concat, if_pos rfl, List.dropLast_concat]
  simp

/-- C7 counterexample: the round-trip law fails for the mapping
`{"a:b" ↦ "v"}` — even the parsed key set differs, so no
quote-normalization reading recovers it. -/
theorem c7_counterexample :
    ((parse_frontmatter (serializeFields [("a:b".toList, "v".toList)])).1).map Prod.fst ≠
      ["a:b".toList] := by
  decide

/-- C7 (amended): parsing the serialized block returns exactly the
mapping and an empty body for every non-empty mapping with distinct
keys whose keys contain no colon, no line break, no `"---"` and no
surrounding whitespace, and whose values contain no line break, no
`"---"`, and no quote character at either boundary. -/
theorem c7_roundtrip (f : Fields) (hne : f ≠ [])
    (hnodup : (f.map Prod.fst).Nodup)
    (hok : ∀ kv ∈ f, keyOk kv.1 = true ∧ valOk kv.2 = true) :
    parse_frontmatter (serializeFields f) = (f, []) := by
  have hfl : ∀ kv ∈ f, findSub3 (fieldLine kv) = none := by
    intro kv hkv
    obtain ⟨k, v⟩ := kv
    exact fieldLine_no_triple k v (hok (k, v) hkv).1 (hok (k, v) hkv).2
  have hlb : ∀ kv ∈ f, ∀ c ∈ fieldLine kv, isLB c = false := by
    intro kv hkv
    obtain ⟨k, v⟩ := kv
    have hk := (hok (k, v) hkv).1
    have hv := (hok (k, v) hkv).2
    simp only [keyOk, Bool.and_eq_true] at hk
    simp only [valOk, Bool.and_eq_true] at hv
    apply fieldLine_no_lb
    · intro x hx
      have := hk.1.1.1.2
      simp at this
      exact this x hx
    · intro x hx
      have := hv.1.1.1
      simp at this
      exact this x hx
  have hmatch := fmMatchLen_serialize f hne hfl
  unfold parse_frontmatter
  simp only [hmatch]
  rw [List.take_length, List.drop_length]
  rw [pySplitlines_serialize f hne hlb]
  rw [List.cons_append, List.foldl_cons, parseLineStep_dashes]
  rw [List.foldl_append]
  rw [foldl_fieldLines f [] hnodup hok (fun kv _ => by simp [hasKey])]
  rw [List.foldl_cons, parseLineStep_dashes, List.foldl_cons, parseLineStep_nil,
    List.foldl_nil]
  simp

/-- Witness for C7 (amended) at a concrete two-field mapping. -/
theorem c7_roundtrip_witness :
    parse_frontmatter (serializeFields
        [("title".toList, "Hello".toList), ("tags".toList, "a, b".toList)]) =
      ([("title".toList, "Hello".toList), ("tags".toList, "a, b".toList)], []) :=
  c7_roundtrip [("title".toList, "Hello".toList), ("tags".toList, "a, b".toList)]
    (by decide) (by decide) (by decide)

end TgBlog
